import Mathlib

/-!
Verification development for the othello_gui match orchestration engine.

The Rust sources under src/ are shallowly embedded below:
- src/othello.rs: tiles, board coordinates (Vec2) and the Vec2 Display
  implementation used as the move-token encoder;
- src/ai.rs: the agent process supervisor (AIRunHandle, handle_finished_child,
  the AI player variant, interrupt);
- src/game.rs: the per-match state machine (Game, play, update, undo);
- src/arena.rs: the arena scheduler (AIArena, start_new_games, update_ai_arena);
- src/elo.rs: the iterative rating engine (from_single_tournament).

The board-rules library (othello_core_lib) and the skillratings crate are
external to src/; where their behaviour matters, definitions are modelled from
the spec and say so in their doc comment.  Machine integers are modelled as
Nat or Int; Rust panics are modelled as none of an Option result where the
panic is relevant to a claim.
-/

/-- Tile of the board library: player X, player O, or the empty tile, as in
src/othello.rs.  The numeric representation is X = 0, O = 1, Empty = 2. -/
inductive Tile
  | X
  | O
  | Empty
deriving DecidableEq

/-- Tile.opponent from src/othello.rs.  The Rust function panics when called on
the empty tile; every use relevant to the claims passes X or O, and the Empty
case here returns Empty as an inert placeholder. -/
def Tile.opponent : Tile → Tile
  | .X => .O
  | .O => .X
  | .Empty => .Empty

/-- Relation of a recorded winner to a queried side, part of the external board
library interface (spec section 6: relationOf). -/
inductive Relation
  | Same
  | Opponent
  | Neutral
deriving DecidableEq

/-- Modelled from the spec: relationOf(winnerSide, querySide) of the external
board library, which is not part of src/.  The neutral tile records a draw and
relates neutrally to both sides; otherwise the winner relates as Same to
itself and as Opponent to the other side. -/
def Tile.relation (w t : Tile) : Relation :=
  if w = .Empty then .Neutral
  else if w = t then .Same
  else .Opponent

/-- Vec2 from src/othello.rs: board coordinates as signed machine integers. -/
structure Vec2 where
  x : Int
  y : Int
deriving DecidableEq

/-- Vec2.new from src/othello.rs. -/
def Vec2.new (x y : Int) : Vec2 := ⟨x, y⟩

/-- Vec2.is_in_board from src/othello.rs. -/
def Vec2.is_in_board (v : Vec2) : Bool :=
  decide (0 ≤ v.x ∧ v.x < 8) && decide (0 ≤ v.y ∧ v.y < 8)

/-- The Display implementation for Vec2 in src/othello.rs.  The Rust code
formats the u8 value of the byte literal of the letter a plus x, followed by
the raw y coordinate.  Both components are formatted as decimal NUMBERS (the
first is a u8, not a char), so for example the x value 0 contributes the text
97.  The u8 conversion and addition wrap modulo 256 as in release builds. -/
def Vec2.display (v : Vec2) : String :=
  toString ((Char.toNat 'a' + (v.x % 256).toNat) % 256) ++ toString v.y

/-- Modelled from the spec: the canonical move token of the board library
(spec section 6): one lowercase letter a..h for the column followed by one
digit 1..8 for the row, for example d3.  This is the move_string function of
the external othello_core_lib. -/
def move_string (v : Vec2) : String :=
  ⟨[Char.ofNat (Char.toNat 'a' + v.x.toNat), Char.ofNat (Char.toNat '1' + v.y.toNat)]⟩

/-- ASCII whitespace predicate used by the trimming in the supervisor model.
Rust str trim removes Unicode whitespace; the agent protocol only involves
ASCII whitespace, which this predicate covers. -/
def rustWs (c : Char) : Bool :=
  c = ' ' || c = '\t' || c = '\n' || c = '\r'

/-- Both-ends trim on a character list, modelling Rust str trim. -/
def trimChars (l : List Char) : List Char :=
  ((l.dropWhile rustWs).reverse.dropWhile rustWs).reverse

/-- Splitting on the newline character, modelling the Rust split call on a
single newline pattern: it always returns at least one (possibly empty)
piece, and empty pieces between consecutive newlines are kept. -/
def splitLines : List Char → List (List Char)
  | [] => [[]]
  | c :: rest =>
    match splitLines rest with
    | [] => [[c]]
    | h :: t => if c = '\n' then [] :: h :: t else (c :: h) :: t

/-- Number of UTF-8 bytes of one character; Rust str len counts bytes. -/
def charBytes (c : Char) : Nat :=
  if c.toNat ≤ 0x7F then 1
  else if c.toNat ≤ 0x7FF then 2
  else if c.toNat ≤ 0xFFFF then 3
  else 4

/-- Byte length of a character list, modelling Rust str len (UTF-8 bytes). -/
def bytesLen (l : List Char) : Nat := (l.map charBytes).sum

/-- AIRunResult from src/ai.rs.  The process exit status is modelled by its
integer code (zero meaning success); Success carries the decoded move and the
optional note line. -/
inductive AIRunResult
  | Running
  | TimeOut
  | RuntimeError (status : Int) (stderr : String)
  | InvalidOuput (msg : String)
  | Success (mv : Vec2) (notes : Option String)
deriving DecidableEq

/-- The stdout-decoding tail of AIRunHandle.handle_finished_child from
src/ai.rs, operating on the already trimmed and split stdout lines: line
count must be 1 or 2, the move token must be exactly 2 bytes, its first
character must be a column letter a..h and its second a row digit 1..8; the
token characters convert to zero-based coordinates by subtraction, and an
optional second line is carried as the note.  The headD defaults stand for
unwrap calls that cannot fail once the preceding length checks passed. -/
def decodeOutput (output : List (List Char)) : AIRunResult :=
  let n := output.length
  if ¬(1 ≤ n ∧ n ≤ 2) then
    .InvalidOuput s!"Output contains {n} lines, which is invalid. It must be between 1 and 2."
  else
    let move_string := output.headD []
    let ms : String := ⟨move_string⟩
    if bytesLen move_string ≠ 2 then
      .InvalidOuput s!"Output \x27{ms}\x27 has invalid length"
    else
      let x_char := move_string.headD 'A'
      if ¬(Char.toNat 'a' ≤ x_char.toNat ∧ x_char.toNat ≤ Char.toNat 'h') then
        .InvalidOuput s!"Move \x27{ms}\x27 has invalid x coordinate"
      else
        let y_char := (move_string.drop 1).headD 'A'
        if ¬(Char.toNat '1' ≤ y_char.toNat ∧ y_char.toNat ≤ Char.toNat '8') then
          .InvalidOuput s!"Move \x27{ms}\x27 has invalid y coordinate"
        else
          let x : Nat := x_char.toNat - Char.toNat 'a'
          let y : Nat := y_char.toNat - Char.toNat '1'
          let mv := Vec2.new (x : Int) (y : Int)
          if n = 2 then .Success mv (some ⟨output.getD 1 []⟩)
          else .Success mv none

/-- AIRunHandle.handle_finished_child from src/ai.rs, as a pure function of
the observed exit status code and the fully drained stderr and stdout texts:
a non-zero status yields RuntimeError with the stderr attached; on a zero
status the stdout is trimmed, split into newline-separated trimmed lines and
decoded by decodeOutput. -/
def handle_finished_child (status : Int) (stderrText : String) (stdout : String) : AIRunResult :=
  if status ≠ 0 then .RuntimeError status stderrText
  else decodeOutput ((splitLines (trimChars stdout.data)).map trimChars)

/-- The well-formedness condition described by claim C1 on the split lines:
exactly 1 or 2 lines, and the first line is exactly two characters, a column
letter a..h followed by a row digit 1..8. -/
def wellFormedLines (output : List (List Char)) : Bool :=
  (output.length == 1 || output.length == 2) &&
    match output.headD [] with
    | [c0, c1] =>
        decide (Char.toNat 'a' ≤ c0.toNat ∧ c0.toNat ≤ Char.toNat 'h') &&
        decide (Char.toNat '1' ≤ c1.toNat ∧ c1.toNat ≤ Char.toNat '8')
    | _ => false

/-- Well-formedness of a raw stdout text: its trimmed content splits into
well-formed lines. -/
def wellFormedStdout (stdout : String) : Bool :=
  wellFormedLines ((splitLines (trimChars stdout.data)).map trimChars)

/-- Observable state of a spawned child process: whether the OS process is
still running.  The request/response texts are passed separately to the pure
decoding functions above. -/
structure Child where
  running : Bool
deriving DecidableEq

/-- AIRunHandle from src/ai.rs: the spawned child plus the issue time and the
configured deadline (times in milliseconds). -/
structure AIRunHandle where
  child : Child
  start : Nat
  time_limit : Nat
deriving DecidableEq

/-- AIRunHandle.kill from src/ai.rs: forcibly terminates the child process. -/
def AIRunHandle.kill (h : AIRunHandle) : AIRunHandle :=
  { h with child := { h.child with running := false } }

/-- AI player state from src/ai.rs: agent path, time limit in milliseconds,
and the outstanding run handle if a request is in flight. -/
structure AI where
  path : String
  time_limit : Nat
  ai_run_handle : Option AIRunHandle
deriving DecidableEq

/-- AI interrupt from src/ai.rs, which runs
self.ai_run_handle.as_mut().unwrap().kill().
The unwrap of a missing run handle is a panic aborting the host, modelled as
none; when a handle exists the child is killed and the handle STAYS in
place (kill does not clear ai_run_handle). -/
def AI.interrupt (a : AI) : Option AI :=
  match a.ai_run_handle with
  | none => none
  | some h => some { a with ai_run_handle := some h.kill }

/-- UpdateResult from src/game.rs: the three player-level outcomes consumed by
the match state machine. -/
inductive UpdateResult
  | Ok (mv : Vec2) (notes : String)
  | Fail (report : String)
  | Wait
deriving DecidableEq

/-- Player update of the AI variant (impl Player for AI in src/ai.rs), as a
function of the AIRunResult returned by AIRunHandle.check.  The legality test
of the decoded move against the current position belongs to the external
board library and is received as the predicate valid; dbg stands for the
diagnostic text self.debug_info(pos).  Returns the possibly changed AI state
(a Success consumes the run handle) and the UpdateResult handed to the match
layer; a Success whose move is not valid becomes a Fail, and a missing note
line is replaced by the fixed default text. -/
def AI.update (a : AI) (valid : Vec2 → Bool) (dbg : String) (res : AIRunResult) :
    AI × UpdateResult :=
  match res with
  | .Running => (a, .Wait)
  | .InvalidOuput err => (a, .Fail s!"Error reading AI move: {err}\n{dbg}")
  | .RuntimeError status stderr =>
      (a, .Fail s!"AI program exit code was non-zero: {status}\nstderr:\n{stderr}\n{dbg}")
  | .TimeOut => (a, .Fail s!"AI program exceeded time limit\n{dbg}")
  | .Success mv notes =>
      let a2 : AI := { a with ai_run_handle := none }
      let ms := move_string mv
      if valid mv then (a2, .Ok mv (notes.getD "no notes provided"))
      else (a2, .Fail s!"Invalid move played by AI: {ms}\n{dbg}")

/-- Modelled from the spec: the interface of the external board-rules library
(othello_core_lib), which is not part of src/.  The match engine treats the
position as an opaque value type exposing exactly these operations (spec
sections 3 and 6): the standard opening position, whose turn it is, applying
a move, game-over detection, winner determination, and move legality. -/
structure PosOps (Pos : Type) where
  new_pos : Pos
  next_player : Pos → Tile
  play : Pos → Vec2 → Pos
  is_game_over : Pos → Bool
  winner : Pos → Tile
  is_valid_move : Pos → Vec2 → Bool

/-- Game (one match) from src/game.rs, generic over the opaque position type
and the player type.  The console argument of the Rust methods only logs and
is omitted throughout. -/
structure Game (Pos P : Type) where
  id : Nat
  pos : Pos
  history : List (Pos × Option Vec2)
  players : Fin 2 → P
  winner : Option Tile

/-- The players array index of a tile (Rust: self.pos.next_player as usize).
Empty converts to index 2 in Rust and indexing the two-element array with it
panics; that corner is unreachable in the claims and Empty maps to 0 here. -/
def tileIdx : Tile → Fin 2
  | .X => 0
  | .O => 1
  | .Empty => 0

/-- Apply f to the player stored at index i, leaving the other in place
(Rust: an in-place mutation through players[i]). -/
def applyAt {P : Type} (ps : Fin 2 → P) (i : Fin 2) (f : P → P) : Fin 2 → P :=
  Function.update ps i (f (ps i))

/-- Game.is_game_over from src/game.rs: the winner has been set. -/
def Game.is_game_over {Pos P : Type} (g : Game Pos P) : Bool := g.winner.isSome

/-- Game.from_pos from src/game.rs: a fresh match with the given starting
position, a one-entry history holding that position with no move, and no
winner. -/
def Game.from_pos {Pos P : Type} (id : Nat) (players : Fin 2 → P) (pos : Pos) : Game Pos P :=
  { id := id, pos := pos, history := [(pos, none)], players := players, winner := none }

/-- Game.new from src/game.rs: from_pos at the standard opening position. -/
def Game.new {Pos P : Type} (O : PosOps Pos) (id : Nat) (players : Fin 2 → P) : Game Pos P :=
  Game.from_pos id players O.new_pos

/-- Game.play from src/game.rs: apply the move to the position, push the new
position together with the move onto the history, and set the winner from the
position when the new position is game over.  The notes argument is only
logged. -/
def Game.play {Pos P : Type} (O : PosOps Pos) (g : Game Pos P) (mv : Vec2)
    (_notes : String) : Game Pos P :=
  let pos2 := O.play g.pos mv
  { g with
    pos := pos2
    history := g.history ++ [(pos2, some mv)]
    winner := if O.is_game_over pos2 then some (O.winner pos2) else g.winner }

/-- Game.initialize_next_player from src/game.rs.  When the match is over
(winner set, so next_player_mut is None) the winner is re-derived from the
position; otherwise init runs on the on-turn player (the Rust call
players[pos.next_player as usize].init(pos), whose io error exits the whole
process and whose effect on the Game fields is nil). -/
def Game.initialize_next_player {Pos P : Type} (O : PosOps Pos) (init : P → P)
    (g : Game Pos P) : Game Pos P :=
  if Game.is_game_over g then { g with winner := some (O.winner g.pos) }
  else { g with players := applyAt g.players (tileIdx (O.next_player g.pos)) init }

/-- Game.update from src/game.rs: a no-op when the match is over; otherwise
the on-turn player updates (upd returns the mutated player and its
UpdateResult) and the result is dispatched: Ok plays the move and then
re-initializes the new on-turn player; Fail forfeits, setting the winner to
the opponent of the on-turn side; Wait changes nothing further. -/
def Game.update {Pos P : Type} (O : PosOps Pos) (upd : P → P × UpdateResult) (init : P → P)
    (g : Game Pos P) : Game Pos P :=
  if Game.is_game_over g then g
  else
    let i := tileIdx (O.next_player g.pos)
    let pr := upd (g.players i)
    let g2 : Game Pos P := { g with players := Function.update g.players i pr.1 }
    match pr.2 with
    | .Ok mv notes => Game.initialize_next_player O init (Game.play O g2 mv notes)
    | .Fail _report => { g2 with winner := some (O.next_player g2.pos).opponent }
    | .Wait => g2

/-- Game.manual_interrupt from src/game.rs: interrupt the on-turn player if
there is one (a player interrupt error is only logged). -/
def Game.manual_interrupt {Pos P : Type} (O : PosOps Pos) (intr : P → P)
    (g : Game Pos P) : Game Pos P :=
  if Game.is_game_over g then g
  else { g with players := applyAt g.players (tileIdx (O.next_player g.pos)) intr }

/-- Game.manual_undo from src/game.rs: clear the winner, pop one history
entry, and restore the position from the last remaining entry.  Popping the
only entry leaves the history empty and the expect on the restored position
panics, modelled as none. -/
def Game.manual_undo {Pos P : Type} (g : Game Pos P) : Option (Game Pos P) :=
  let hist := g.history.dropLast
  match hist.getLast? with
  | none => none
  | some last => some { g with winner := none, history := hist, pos := last.1 }

/-- Popping n entries off the end of a list, one at a time; a pop on an empty
list is a no-op, as for the Rust Vec pop. -/
def popEnd {α : Type} (l : List α) : Nat → List α
  | 0 => l
  | n + 1 => popEnd l.dropLast n

/-- Game.undo from src/game.rs: interrupt the on-turn player if there is one,
clear the winner, pop the requested number of history entries, restore the
position from the last remaining entry (the expect panics, modelled as none,
when the history was emptied), and re-initialize the new on-turn player. -/
def Game.undo {Pos P : Type} (O : PosOps Pos) (intr init : P → P) (g : Game Pos P)
    (moves : Nat) : Option (Game Pos P) :=
  let g1 := if Game.is_game_over g then g
            else { g with players := applyAt g.players (tileIdx (O.next_player g.pos)) intr }
  let hist := popEnd g1.history moves
  match hist.getLast? with
  | none => none
  | some last =>
      some (Game.initialize_next_player O init
        { g1 with winner := none, history := hist, pos := last.1 })

/-- Score of one relation outcome as used by Game.score_for: 1 for Same, one
half for Neutral, 0 for Opponent.  These f32 values and their sums are exact,
so scores are modelled as rationals. -/
def relScore : Relation → ℚ
  | .Same => 1
  | .Neutral => 1/2
  | .Opponent => 0

/-- Game.score_for from src/game.rs: unwrap the winner (the unwrap panics
when no winner is set, modelled as none) and map the relation of the recorded
winner to the queried tile to a score.  The relation function of the external
board library is passed as the parameter rel. -/
def Game.score_for {Pos P : Type} (rel : Tile → Tile → Relation) (g : Game Pos P)
    (tile : Tile) : Option ℚ :=
  g.winner.map fun w => relScore (rel w tile)

/-- The implicit history invariant of claim C10: the history is nonempty and
the pos field equals the position stored in the last history entry. -/
def Game.histInv {Pos P : Type} (g : Game Pos P) : Prop :=
  g.history ≠ [] ∧ g.history.getLast?.map Prod.fst = some g.pos

/-- AIArena from src/arena.rs, generic over the position and player types like
Game.  The console and the reporting submode only affect terminal output and
the final report followed by the process exit, and are omitted. -/
structure AIArena (Pos P : Type) where
  games : List (Game Pos P)
  showed_game_idx : Nat
  first_unstarted : Nat
  max_concurrency : Nat

/-- AIArena.new from src/arena.rs: the given games, display pointer and
first_unstarted both 0, and the given concurrency budget. -/
def AIArena.new {Pos P : Type} (games : List (Game Pos P)) (max_concurrency : Nat) :
    AIArena Pos P :=
  { games := games, showed_game_idx := 0, first_unstarted := 0,
    max_concurrency := max_concurrency }

/-- Initialization sweep of start_new_games: skip the first s games, run
Game initialization on the next c games, and leave the rest.  Game.initialize
in the Rust code logs a start message and delegates to initialize_next_player,
so its state effect is exactly initialize_next_player. -/
def initRange {Pos P : Type} (O : PosOps Pos) (init : P → P) :
    List (Game Pos P) → Nat → Nat → List (Game Pos P)
  | [], _, _ => []
  | gs, _, 0 => gs
  | g :: gs, 0, c + 1 =>
      Game.initialize_next_player O init g :: initRange O init gs 0 c
  | g :: gs, s + 1, c => g :: initRange O init gs s c

/-- AIArena.start_new_games from src/arena.rs: count the ongoing games in the
started prefix, compute can_start = max_concurrency - ongoing (a usize
subtraction: the admission invariant proved below keeps it from
underflowing), initialize the queued games up to can_start of them (and not
past the end of the list), and advance first_unstarted past them. -/
def AIArena.start_new_games {Pos P : Type} (O : PosOps Pos) (init : P → P)
    (s : AIArena Pos P) : AIArena Pos P :=
  let ongoing := ((s.games.take s.first_unstarted).filter
    (fun g => ! Game.is_game_over g)).length
  let can_start := s.max_concurrency - ongoing
  let window_end := min (s.first_unstarted + can_start) s.games.length
  { s with
    games := initRange O init s.games s.first_unstarted (window_end - s.first_unstarted)
    first_unstarted := window_end }

/-- Update sweep of update_ai_arena: run Game.update on the first c games,
the player-update outcome of the game at index i being given by upds i. -/
def updateFirst {Pos P : Type} (O : PosOps Pos) (init : P → P)
    (upds : Nat → P → P × UpdateResult) :
    List (Game Pos P) → Nat → List (Game Pos P)
  | l, 0 => l
  | [], _ => []
  | g :: gs, c + 1 =>
      Game.update O (upds 0) init g ::
        updateFirst O init (fun i => upds (i + 1)) gs c

/-- AIArena.update_ai_arena from src/arena.rs: admit new games, move the
display pointer to the most recently started game when the displayed game has
finished (first_unstarted - 1 in usize arithmetic; the Rust indexing panics
on an empty games list, a corner left unchanged here), update every started
game, then print progress and, when every game is over, produce the final
report and exit the process (output only, omitted). -/
def AIArena.update_ai_arena {Pos P : Type} (O : PosOps Pos) (init : P → P)
    (upds : Nat → P → P × UpdateResult) (s : AIArena Pos P) : AIArena Pos P :=
  let s1 := AIArena.start_new_games O init s
  let showed2 := match s1.games[s1.showed_game_idx]? with
    | some g => if Game.is_game_over g then s1.first_unstarted - 1 else s1.showed_game_idx
    | none => s1.showed_game_idx
  { s1 with
    showed_game_idx := showed2
    games := updateFirst O init upds s1.games s1.first_unstarted }

/-- The number of initialized but unfinished matches of an arena: games in the
started prefix whose winner is not yet set. -/
def AIArena.ongoing {Pos P : Type} (s : AIArena Pos P) : Nat :=
  ((s.games.take s.first_unstarted).filter (fun g => ! Game.is_game_over g)).length

/-- The arena admission invariant of claim C3: the initialized-but-unfinished
count stays within the concurrency budget (which is also exactly what keeps
the can_start subtraction from underflowing at the next tick), and the
started-prefix cursor stays within bounds. -/
def AIArena.admissionInv {Pos P : Type} (s : AIArena Pos P) : Prop :=
  AIArena.ongoing s ≤ s.max_concurrency ∧ s.first_unstarted ≤ s.games.length

/-- Outcomes of the external skillratings crate: win, draw, loss. -/
inductive elo.Outcomes
  | WIN
  | DRAW
  | LOSS
deriving DecidableEq

/-- elo.Game from src/elo.rs: the two participants of one finished pairwise
game and the score of the first participant.  The scores the engine receives
are the exact f32 values 0, 0.5, 1, modelled as rationals. -/
structure elo.Game (Player : Type) where
  players : Player × Player
  score : ℚ

/-- elo.HalfGame from src/elo.rs: one participant view of a game. -/
structure elo.HalfGame (Player : Type) where
  opponent : Player
  outcome : elo.Outcomes

/-- score_to_outcome from src/elo.rs; a score other than 0, 0.5 or 1 panics,
modelled as none. -/
def elo.score_to_outcome (score : ℚ) : Option elo.Outcomes :=
  if score = 0 then some .LOSS
  else if score = 1/2 then some .DRAW
  else if score = 1 then some .WIN
  else none

/-- The games_by_player map built by from_single_tournament in src/elo.rs:
the half games of participant p in input order; each game contributes its
score for the first participant and the mirrored score 1 - score for the
second.  An invalid score panics in Rust before any rating round runs; the
conversion here defaults to LOSS in that corner, which the engine never
reaches with the scores produced by the arena. -/
def elo.gamesByPlayer {Player : Type} [DecidableEq Player]
    (games : List (elo.Game Player)) (p : Player) : List (elo.HalfGame Player) :=
  games.foldl
    (fun acc g =>
      let acc2 := if g.players.1 = p then
          acc ++ [⟨g.players.2, (elo.score_to_outcome g.score).getD .LOSS⟩]
        else acc
      if g.players.2 = p then
          acc2 ++ [⟨g.players.1, (elo.score_to_outcome (1 - g.score)).getD .LOSS⟩]
        else acc2)
    []

/-- The participants appearing in the game list, in first-occurrence order:
these are the keys inserted into the ratings map (all at the baseline 1000)
by from_single_tournament, and hence the keys a round iterates over. -/
def elo.participants {Player : Type} [DecidableEq Player]
    (games : List (elo.Game Player)) : List Player :=
  games.foldl
    (fun acc g =>
      let acc2 := if g.players.1 ∈ acc then acc else acc ++ [g.players.1]
      if g.players.2 ∈ acc2 then acc2 else acc2 ++ [g.players.2])
    []

/-- One iteration round of from_single_tournament from src/elo.rs: starting
from a copy of the previous ratings (new_elos = elos.clone()), insert for
each processed participant a new rating computed by the formula f from the
FROZEN previous-round ratings elos.  This is the double buffering of the
claim: the accumulator new_elos is only written, elos is only read.  order is
the processing order of the games_by_player map iteration. -/
def elo.eloRound {R Player : Type} [DecidableEq Player]
    (f : (Player → R) → Player → List (elo.HalfGame Player) → R)
    (hg : Player → List (elo.HalfGame Player)) (elos : Player → R)
    (order : List Player) : Player → R :=
  order.foldl (fun new_elos p => Function.update new_elos p (f elos p (hg p))) elos

/-- from_single_tournament from src/elo.rs.  The per-participant Elo
batch-update formula new_elo (which reads only the frozen previous-round
ratings and calls elo_rating_period of the external skillratings crate with
the given K-factor) is abstracted as the parameter f over an arbitrary rating
type R: claim C4 concerns the double-buffered round structure, which holds
whatever arithmetic f performs, in f64 as well as here.  baseline models the
initial rating 1000.0 given to every participant; the ratings map is modelled
as a total function whose values outside the participants stay at the
baseline.  order is the iteration order of the games_by_player hash map, the
same in every round since the map is not changed after construction. -/
def elo.from_single_tournament {R Player : Type} [DecidableEq Player]
    (f : (Player → R) → Player → List (elo.HalfGame Player) → R) (baseline : R)
    (games : List (elo.Game Player)) (iterations : Nat) (order : List Player) :
    Player → R :=
  (fun elos => elo.eloRound f (elo.gamesByPlayer games) elos order)^[iterations]
    (fun _ => baseline)

theorem charBytes_pos (c : Char) : 0 < charBytes c := by
  unfold charBytes
  split_ifs <;> norm_num

theorem charBytes_eq_one {c : Char} (h : c.toNat ≤ 127) : charBytes c = 1 := by
  unfold charBytes
  rw [if_pos]
  exact h

theorem length_le_bytesLen (l : List Char) : l.length ≤ bytesLen l := by
  induction l with
  | nil => simp [bytesLen]
  | cons a l ih =>
      have := charBytes_pos a
      simp only [bytesLen, List.map_cons, List.sum_cons, List.length_cons] at *
      omega

theorem token_shape {l : List Char}
    (hb : bytesLen l = 2)
    (hx : Char.toNat 'a' ≤ (l.headD 'A').toNat ∧ (l.headD 'A').toNat ≤ Char.toNat 'h')
    (hy : Char.toNat '1' ≤ ((l.drop 1).headD 'A').toNat ∧
      ((l.drop 1).headD 'A').toNat ≤ Char.toNat '8') :
    l = [l.headD 'A', (l.drop 1).headD 'A'] := by
  have hh : Char.toNat 'h' = 104 := rfl
  have h8 : Char.toNat '8' = 56 := rfl
  rcases l with _ | ⟨a, rest1⟩
  · simp [bytesLen] at hb
  rcases rest1 with _ | ⟨b, rest⟩
  · exfalso
    simp only [List.headD_cons, hh] at hx
    have h1 : charBytes a = 1 := charBytes_eq_one (by omega)
    simp [bytesLen, h1] at hb
  simp only [List.headD_cons, List.drop_succ_cons, List.drop_zero, hh, h8] at hx hy ⊢
  have ha : charBytes a = 1 := charBytes_eq_one (by omega)
  have hbb : charBytes b = 1 := charBytes_eq_one (by omega)
  have hrest : bytesLen rest = 0 := by
    have hc : bytesLen (a :: b :: rest) = charBytes a + (charBytes b + bytesLen rest) := by
      simp [bytesLen]
    rw [hc, ha, hbb] at hb
    omega
  have hlen : rest.length = 0 := by
    have := length_le_bytesLen rest
    omega
  have hnil : rest = [] := List.length_eq_zero.mp hlen
  subst hnil
  simp

theorem decodeOutput_invalid_of_malformed {out : List (List Char)}
    (hbad : wellFormedLines out = false) :
    ∃ msg, decodeOutput out = .InvalidOuput msg := by
  simp only [decodeOutput]
  split_ifs with h1 h2 h3 h4 h5
  all_goals try exact ⟨_, rfl⟩
  all_goals {
    exfalso
    push_neg at h2
    have hsh := token_shape h2 h3 h4
    have hgood : wellFormedLines out = true := by
      unfold wellFormedLines
      rw [hsh]
      have hlen : (out.length == 1 || out.length == 2) = true := by
        have hl : out.length = 1 ∨ out.length = 2 := by omega
        rcases hl with h | h <;> simp [h]
      rw [hlen]
      show (true && (decide _ && decide _)) = true
      rw [decide_eq_true h3, decide_eq_true h4]
      rfl
    rw [hgood] at hbad
    exact Bool.noConfusion hbad
  }

theorem decodeOutput_success {out : List (List Char)} {mv : Vec2} {notes : Option String}
    (h : decodeOutput out = .Success mv notes) :
    mv = Vec2.new (((out.headD []).headD 'A').toNat - Char.toNat 'a' : Nat)
        ((((out.headD []).drop 1).headD 'A').toNat - Char.toNat '1' : Nat) ∧
    notes = (if out.length = 2 then some ⟨out.getD 1 []⟩ else none) := by
  simp only [decodeOutput] at h
  split_ifs at h with h1 h2 h3 h4 h5
  all_goals first
    | exact AIRunResult.noConfusion h
    | (injection h with hmv hnotes
       refine ⟨hmv.symm, ?_⟩
       first
         | (rw [if_pos h5]; exact hnotes.symm)
         | (rw [if_neg h5]; exact hnotes.symm))

theorem Game.update_of_over {Pos P : Type} (O : PosOps Pos) (upd : P → P × UpdateResult)
    (init : P → P) (g : Game Pos P) (h : Game.is_game_over g = true) :
    Game.update O upd init g = g := by
  simp [Game.update, h]

theorem initRange_eq {Pos P : Type} (O : PosOps Pos) (init : P → P) :
    ∀ (l : List (Game Pos P)) (s c : Nat),
      initRange O init l s c =
        l.take s ++ ((l.drop s).take c).map (Game.initialize_next_player O init)
          ++ (l.drop s).drop c := by
  intro l
  induction l with
  | nil => intro s c; simp [initRange]
  | cons g gs ih =>
      intro s c
      cases c with
      | zero => simp [initRange, List.take_append_drop]
      | succ c =>
          cases s with
          | zero => simp [initRange, ih]
          | succ s => simp [initRange, ih]

theorem updateFirst_length {Pos P : Type} (O : PosOps Pos) (init : P → P) :
    ∀ (l : List (Game Pos P)) (c : Nat) (upds : Nat → P → P × UpdateResult),
      (updateFirst O init upds l c).length = l.length := by
  intro l
  induction l with
  | nil => intro c upds; cases c <;> simp [updateFirst]
  | cons g gs ih =>
      intro c upds
      cases c with
      | zero => simp [updateFirst]
      | succ c => simp [updateFirst, ih]

theorem updateFirst_drop {Pos P : Type} (O : PosOps Pos) (init : P → P) :
    ∀ (l : List (Game Pos P)) (c : Nat) (upds : Nat → P → P × UpdateResult),
      (updateFirst O init upds l c).drop c = l.drop c := by
  intro l
  induction l with
  | nil => intro c upds; cases c <;> simp [updateFirst]
  | cons g gs ih =>
      intro c upds
      cases c with
      | zero => simp [updateFirst]
      | succ c => simp [updateFirst, ih]

theorem updateFirst_filter_le {Pos P : Type} (O : PosOps Pos) (init : P → P) :
    ∀ (l : List (Game Pos P)) (c : Nat) (upds : Nat → P → P × UpdateResult),
      (((updateFirst O init upds l c).take c).filter
        (fun g => ! Game.is_game_over g)).length ≤
      ((l.take c).filter (fun g => ! Game.is_game_over g)).length := by
  intro l
  induction l with
  | nil => intro c upds; cases c <;> simp [updateFirst]
  | cons g gs ih =>
      intro c upds
      cases c with
      | zero => simp [updateFirst]
      | succ c =>
          have hrec := ih c (fun i => upds (i + 1))
          simp only [updateFirst, List.take_succ_cons, List.filter_cons]
          by_cases hg : Game.is_game_over g
          · rw [Game.update_of_over O (upds 0) init g hg]
            by_cases hpg : (! Game.is_game_over g) = true <;> simp [hpg] <;> omega
          · have hq : (! Game.is_game_over g) = true := by simp [hg]
            rw [if_pos hq]
            by_cases hpu :
                (! Game.is_game_over (Game.update O (upds 0) init g)) = true <;>
              simp [hpu] <;> omega

theorem start_new_games_inv {Pos P : Type} (O : PosOps Pos) (init : P → P)
    (s : AIArena Pos P) (h : AIArena.admissionInv s) :
    AIArena.admissionInv ( AIArena.start_new_games O init s) := by
  obtain ⟨hong, hfu⟩ := h
  unfold AIArena.ongoing at hong
  unfold AIArena.admissionInv AIArena.ongoing AIArena.start_new_games
  simp only
  set og := ((s.games.take s.first_unstarted).filter
    (fun g => ! Game.is_game_over g)).length with hog
  set we := min (s.first_unstarted + (s.max_concurrency - og)) s.games.length with hwe
  have hfuwe : s.first_unstarted ≤ we := by omega
  have hwelen : we ≤ s.games.length := by omega
  rw [initRange_eq]
  have hlenA : (s.games.take s.first_unstarted).length = s.first_unstarted := by
    simp
    omega
  have hlenB : (((s.games.drop s.first_unstarted).take (we - s.first_unstarted)).map
      (Game.initialize_next_player O init)).length = we - s.first_unstarted := by
    simp
    omega
  constructor
  · have hsplit : (s.games.take s.first_unstarted ++
        ((s.games.drop s.first_unstarted).take (we - s.first_unstarted)).map
          (Game.initialize_next_player O init) ++
        (s.games.drop s.first_unstarted).drop (we - s.first_unstarted)).take we =
        s.games.take s.first_unstarted ++
        ((s.games.drop s.first_unstarted).take (we - s.first_unstarted)).map
          (Game.initialize_next_player O init) := by
      rw [List.take_append_eq_append_take]
      rw [List.take_of_length_le]
      · rw [List.length_append, hlenA, hlenB]
        have : we - (s.first_unstarted + (we - s.first_unstarted)) = 0 := by omega
        rw [this, List.take_zero, List.append_nil]
      · rw [List.length_append, hlenA, hlenB]
        omega
    rw [hsplit, List.filter_append, List.length_append]
    have hBle : ((((s.games.drop s.first_unstarted).take (we - s.first_unstarted)).map
        (Game.initialize_next_player O init)).filter
          (fun g => ! Game.is_game_over g)).length ≤ we - s.first_unstarted := by
      calc ((((s.games.drop s.first_unstarted).take (we - s.first_unstarted)).map
          (Game.initialize_next_player O init)).filter
            (fun g => ! Game.is_game_over g)).length
          ≤ (((s.games.drop s.first_unstarted).take (we - s.first_unstarted)).map
            (Game.initialize_next_player O init)).length :=
            List.length_filter_le _ _
        _ = we - s.first_unstarted := hlenB
    omega
  · rw [List.length_append, List.length_append, hlenA, hlenB]
    simp
    omega

theorem update_ai_arena_inv {Pos P : Type} (O : PosOps Pos) (init : P → P)
    (upds : Nat → P → P × UpdateResult) (s : AIArena Pos P)
    (h : AIArena.admissionInv s) :
    AIArena.admissionInv ( AIArena.update_ai_arena O init upds s) := by
  have h1 := start_new_games_inv O init s h
  obtain ⟨hong1, hfu1⟩ := h1
  unfold AIArena.ongoing at hong1
  unfold AIArena.update_ai_arena
  simp only
  constructor
  · unfold AIArena.ongoing
    simp only
    calc ((((updateFirst O init upds ( AIArena.start_new_games O init s).games
          ( AIArena.start_new_games O init s).first_unstarted).take
            ( AIArena.start_new_games O init s).first_unstarted).filter
              (fun g => ! Game.is_game_over g)).length)
        ≤ (((( AIArena.start_new_games O init s).games.take
            ( AIArena.start_new_games O init s).first_unstarted).filter
              (fun g => ! Game.is_game_over g)).length) :=
          updateFirst_filter_le O init _ _ _
      _ ≤ ( AIArena.start_new_games O init s).max_concurrency := hong1
  · simp only
    rw [updateFirst_length]
    exact hfu1

/-- Claim C3: starting from a freshly constructed arena, after every sequence
of update_ai_arena ticks the number of initialized-but-not-finished games
never exceeds max_concurrency (equivalently, the per-tick can_start
subtraction max_concurrency - ongoing never underflows, since the bound holds
at entry to every tick), and the first_unstarted cursor stays within the game
list.  The player-update outcomes of each tick are arbitrary (the upds
functions in the env list), covering every possible behaviour of the agent
processes; a prefix of a sequence is itself a sequence, so the invariant
holds at every intermediate tick as well. -/
theorem C3_admission_invariant {Pos P : Type} (O : PosOps Pos) (init : P → P)
    (gs : List (Game Pos P)) (budget : Nat)
    (envs : List (Nat → P → P × UpdateResult)) :
    AIArena.admissionInv
      (envs.foldl (fun s u => AIArena.update_ai_arena O init u s)
        ( AIArena.new gs budget)) := by
  have hnew : AIArena.admissionInv ( AIArena.new gs budget) := by
    constructor
    · simp [AIArena.ongoing, AIArena.new]
    · simp [AIArena.new]
  suffices H : ∀ (envs2 : List (Nat → P → P × UpdateResult)) (st : AIArena Pos P),
      AIArena.admissionInv st →
      AIArena.admissionInv
        (envs2.foldl (fun s u => AIArena.update_ai_arena O init u s) st) by
    exact H envs _ hnew
  intro envs2
  induction envs2 with
  | nil => intro st hst; exact hst
  | cons e es ih =>
      intro st hst
      exact ih _ (update_ai_arena_inv O init e st hst)

theorem popEnd_eq_take {α : Type} : ∀ (n : Nat) (l : List α),
    popEnd l n = l.take (l.length - n) := by
  intro n
  induction n with
  | zero => intro l; simp [popEnd]
  | succ n ih =>
      intro l
      show popEnd l.dropLast n = l.take (l.length - (n + 1))
      rw [ih, List.dropLast_eq_take, List.length_take, List.take_take]
      congr 1
      omega

/-- Claim C2: when the match is not yet over and the on-turn player update
returns Fail, Game.update sets the winner to the opponent of the on-turn
side, leaves the history and the current position unchanged, and the match is
terminal afterwards.  The on-turn side being an actual player corresponds to
next_player not being the empty tile (on the empty tile the Rust opponent
call would panic). -/
theorem C2_fail_forfeits {Pos P : Type} (O : PosOps Pos) (upd : P → P × UpdateResult)
    (init : P → P) (g : Game Pos P) (p2 : P) (report : String)
    (hw : g.winner = none) (_hnp : O.next_player g.pos ≠ Tile.Empty)
    (hupd : upd (g.players (tileIdx (O.next_player g.pos))) = (p2, UpdateResult.Fail report)) :
    Game.update O upd init g =
      { g with players := Function.update g.players (tileIdx (O.next_player g.pos)) p2,
               winner := some (O.next_player g.pos).opponent } ∧
    (Game.update O upd init g).history = g.history ∧
    (Game.update O upd init g).pos = g.pos ∧
    Game.is_game_over (Game.update O upd init g) = true := by
  have hover : Game.is_game_over g = false := by simp [Game.is_game_over, hw]
  have hmain : Game.update O upd init g =
      { g with players := Function.update g.players (tileIdx (O.next_player g.pos)) p2,
               winner := some (O.next_player g.pos).opponent } := by
    unfold Game.update
    simp only [hover, Bool.false_eq_true, if_false, hupd]
  refine ⟨hmain, ?_, ?_, ?_⟩ <;> simp [hmain, Game.is_game_over]

theorem C2_witness :
    (Game.update (⟨(), fun _ => Tile.X, fun p _ => p, fun _ => false,
        fun _ => Tile.Empty, fun _ _ => true⟩ : PosOps Unit)
      (fun p => (p + 1, UpdateResult.Fail "boom")) (id : Nat → Nat)
      { id := 0, pos := (), history := [((), none)], players := fun _ => 0,
        winner := none }).history = [((), none)] ∧
    Game.is_game_over
      (Game.update (⟨(), fun _ => Tile.X, fun p _ => p, fun _ => false,
        fun _ => Tile.Empty, fun _ _ => true⟩ : PosOps Unit)
      (fun p => (p + 1, UpdateResult.Fail "boom")) (id : Nat → Nat)
      { id := 0, pos := (), history := [((), none)], players := fun _ => 0,
        winner := none }) = true := by
  have h := C2_fail_forfeits
    (⟨(), fun _ => Tile.X, fun p _ => p, fun _ => false,
        fun _ => Tile.Empty, fun _ _ => true⟩ : PosOps Unit)
    (fun p => (p + 1, UpdateResult.Fail "boom")) (id : Nat → Nat)
    { id := 0, pos := (), history := [((), none)], players := fun _ => 0, winner := none }
    1 "boom" rfl (by decide) rfl
  exact ⟨h.2.1, h.2.2.2⟩

/-- Claim C6: undo(n) interrupts the on-turn player when there is one, pops
exactly n history entries, clears the winner, restores the position from the
last remaining history entry, and re-initializes the new on-turn player; it
panics (none) when n covers the whole history, because popping would remove
the initial entry.  manual_undo pops exactly one entry and clears the winner,
and panics (none) when only the initial entry remains. -/
theorem C6_undo_semantics {Pos P : Type} (O : PosOps Pos) (intr init : P → P)
    (g : Game Pos P) (n : Nat) :
    (popEnd g.history n).length = g.history.length - n ∧
    (∀ last, (popEnd g.history n).getLast? = some last →
      Game.undo O intr init g n = some
        { id := g.id, pos := last.1, history := popEnd g.history n,
          players := applyAt
            (if Game.is_game_over g then g.players
             else applyAt g.players (tileIdx (O.next_player g.pos)) intr)
            (tileIdx (O.next_player last.1)) init,
          winner := none }) ∧
    (g.history.length ≤ n → Game.undo O intr init g n = none) ∧
    (∀ last, g.history.dropLast.getLast? = some last →
      Game.manual_undo g = some
        { g with winner := none, history := g.history.dropLast, pos := last.1 }) ∧
    (g.history.length < 2 → Game.manual_undo g = none) := by
  refine ⟨?_, ?_, ?_, ?_, ?_⟩
  · rw [popEnd_eq_take]
    simp
  · intro last hlast
    rcases hw : g.winner with _ | w <;>
      simp [Game.undo, Game.initialize_next_player, Game.is_game_over, hw, hlast]
  · intro hn
    have hemp : popEnd g.history n = [] := by
      rw [popEnd_eq_take]
      have h0 : g.history.length - n = 0 := by omega
      rw [h0, List.take_zero]
    rcases hw : g.winner with _ | w <;>
      simp [Game.undo, Game.is_game_over, hw, hemp]
  · intro last hlast
    simp only [Game.manual_undo, hlast]
  · intro hlt
    have hemp : g.history.dropLast.getLast? = none := by
      rw [List.dropLast_eq_take]
      have h0 : g.history.length - 1 = 0 := by omega
      rw [h0, List.take_zero, List.getLast?_nil]
    simp only [Game.manual_undo, hemp]

theorem C6_witness :
    Game.undo (⟨0, fun _ => Tile.X, fun p _ => p, fun _ => false,
        fun _ => Tile.Empty, fun _ _ => true⟩ : PosOps Nat) (fun p => p + 1) (fun p => p + 2)
      { id := 7, pos := 5, history := [(3, none), (5, some (Vec2.new 3 2))],
        players := fun _ => 0, winner := none } 5 = none ∧
    Game.manual_undo
      { id := 7, pos := 5, history := [((3:Nat), (none : Option Vec2)), (5, some (Vec2.new 3 2))],
        players := (fun _ : Fin 2 => (0 : Nat)), winner := none } =
      some { id := 7, pos := 3, history := [(3, none)], players := (fun _ => 0), winner := none } ∧
    Game.undo (⟨0, fun _ => Tile.X, fun p _ => p, fun _ => false,
        fun _ => Tile.Empty, fun _ _ => true⟩ : PosOps Nat) (fun p => p + 1) (fun p => p + 2)
      { id := 7, pos := 5, history := [(3, none), (5, some (Vec2.new 3 2))],
        players := fun _ => 0, winner := none } 1 =
      some { id := 7, pos := 3, history := [(3, none)],
              players := applyAt
                (applyAt (fun _ : Fin 2 => (0 : Nat)) (tileIdx Tile.X) (fun p => p + 1))
                (tileIdx Tile.X) (fun p => p + 2),
              winner := none } := by
  have h1 := C6_undo_semantics (⟨0, fun _ => Tile.X, fun p _ => p, fun _ => false,
      fun _ => Tile.Empty, fun _ _ => true⟩ : PosOps Nat) (fun p => p + 1) (fun p => p + 2)
    { id := 7, pos := 5, history := [(3, none), (5, some (Vec2.new 3 2))],
      players := fun _ => 0, winner := none } 1
  have h5 := C6_undo_semantics (⟨0, fun _ => Tile.X, fun p _ => p, fun _ => false,
      fun _ => Tile.Empty, fun _ _ => true⟩ : PosOps Nat) (fun p => p + 1) (fun p => p + 2)
    { id := 7, pos := 5, history := [(3, none), (5, some (Vec2.new 3 2))],
      players := fun _ => 0, winner := none } 5
  exact ⟨h5.2.2.1 (by decide),
    h1.2.2.2.1 ((3 : Nat), (none : Option Vec2)) (by decide),
    h1.2.1 ((3 : Nat), (none : Option Vec2)) (by decide)⟩

theorem histInvInitNext {Pos P : Type} (O : PosOps Pos) (init : P → P)
    (g : Game Pos P) :
    Game.histInv (Game.initialize_next_player O init g) ↔ Game.histInv g := by
  unfold Game.initialize_next_player
  split <;> simp [Game.histInv]

/-- Claim C10: the history is nonempty and pos equals the position stored in
the last history entry; this holds after construction by from_pos and is
preserved by play, by update, by every undo that returns (rather than
panicking), and by every manual_undo that returns. -/
theorem C10_history_invariant {Pos P : Type} (O : PosOps Pos)
    (upd : P → P × UpdateResult) (intr init : P → P) (id : Nat)
    (players : Fin 2 → P) (pos : Pos) (g g' : Game Pos P) (mv : Vec2)
    (notes : String) (n : Nat) :
    Game.histInv (Game.from_pos id players pos : Game Pos P) ∧
    (Game.histInv g → Game.histInv (Game.play O g mv notes)) ∧
    (Game.histInv g → Game.histInv (Game.update O upd init g)) ∧
    (Game.histInv g → Game.undo O intr init g n = some g' → Game.histInv g') ∧
    (Game.histInv g → Game.manual_undo g = some g' → Game.histInv g') := by
  have hplay : ∀ (g2 : Game Pos P) (mv2 : Vec2) (notes2 : String),
      Game.histInv (Game.play O g2 mv2 notes2) := by
    intro g2 mv2 notes2
    simp [Game.play, Game.histInv, List.getLast?_concat]
  refine ⟨?_, ?_, ?_, ?_, ?_⟩
  · simp [Game.from_pos, Game.histInv]
  · intro _h
    exact hplay g mv notes
  · intro h
    rcases hw : g.winner with _ | w
    · rcases hres : (upd (g.players (tileIdx (O.next_player g.pos)))).2 with
        ⟨mv2, notes2⟩ | ⟨rep⟩ | ⟨⟩
      · have heq : Game.update O upd init g =
            Game.initialize_next_player O init
              (Game.play O { g with players := Function.update g.players (tileIdx (O.next_player g.pos)) (upd (g.players (tileIdx (O.next_player g.pos)))).1 } mv2 notes2) := by
          simp [Game.update, Game.is_game_over, hw, hres]
        rw [heq, histInvInitNext]
        exact hplay _ mv2 notes2
      · have heq : Game.update O upd init g =
            { g with players := Function.update g.players (tileIdx (O.next_player g.pos)) (upd (g.players (tileIdx (O.next_player g.pos)))).1, winner := some (O.next_player g.pos).opponent } := by
          simp [Game.update, Game.is_game_over, hw, hres]
        rw [heq]
        exact h
      · have heq : Game.update O upd init g =
            { g with players := Function.update g.players (tileIdx (O.next_player g.pos)) (upd (g.players (tileIdx (O.next_player g.pos)))).1 } := by
          simp [Game.update, Game.is_game_over, hw, hres]
        rw [heq]
        exact h
    · rw [Game.update_of_over O upd init g (by simp [Game.is_game_over, hw])]
      exact h
  · intro _h hu
    rcases hl : (popEnd g.history n).getLast? with _ | last
    · exfalso
      rcases hw : g.winner with _ | w <;>
        simp [Game.undo, Game.is_game_over, hw, hl] at hu
    · have hne : popEnd g.history n ≠ [] := by
        intro hnil
        rw [hnil] at hl
        simp at hl
      rcases hw : g.winner with _ | w <;>
        (simp only [Game.undo, Game.is_game_over, hw] at hu
         simp only [hl, Option.isSome_none, Option.isSome_some, Bool.false_eq_true,
           if_false, if_true, Option.some.injEq] at hu
         subst hu
         rw [histInvInitNext]
         exact ⟨hne, by rw [hl]; rfl⟩)
  · intro _h hu
    rcases hl : g.history.dropLast.getLast? with _ | last
    · exfalso
      simp [Game.manual_undo, hl] at hu
    · have hne : g.history.dropLast ≠ [] := by
        intro hnil
        rw [hnil] at hl
        simp at hl
      simp only [Game.manual_undo, hl, Option.some.injEq] at hu
      subst hu
      exact ⟨hne, by rw [hl]; rfl⟩

theorem C10_witness :
    Game.histInv (Game.from_pos 0 (fun _ : Fin 2 => (0 : Nat)) (5 : Nat)) ∧
    Game.histInv (Game.play
      (⟨0, fun _ => Tile.X, fun p _ => p, fun _ => false, fun _ => Tile.Empty,
        fun _ _ => true⟩ : PosOps Nat)
      { id := 7, pos := 5, history := [(3, none), (5, some (Vec2.new 3 2))], players := (fun _ => 0), winner := none }
      (Vec2.new 3 2) "x") ∧
    Game.histInv
      { id := 7, pos := 3, history := [((3 : Nat), (none : Option Vec2))], players := applyAt (applyAt (fun _ : Fin 2 => (0 : Nat)) (tileIdx Tile.X) (fun p => p + 1)) (tileIdx Tile.X) (fun p => p + 2), winner := none } ∧
    Game.histInv
      { id := 7, pos := 3, history := [((3 : Nat), (none : Option Vec2))], players := (fun _ : Fin 2 => (0 : Nat)), winner := none } := by
  have hinv : Game.histInv
      ({ id := 7, pos := 5, history := [(3, none), (5, some (Vec2.new 3 2))], players := (fun _ => 0), winner := none } : Game Nat Nat) :=
    ⟨by decide, by decide⟩
  have h1 := C10_history_invariant
    (⟨0, fun _ => Tile.X, fun p _ => p, fun _ => false, fun _ => Tile.Empty,
      fun _ _ => true⟩ : PosOps Nat)
    (fun p => (p, UpdateResult.Wait)) (fun p => p + 1) (fun p => p + 2)
    0 (fun _ => 0) 5
    { id := 7, pos := 5, history := [(3, none), (5, some (Vec2.new 3 2))], players := (fun _ => 0), winner := none }
    { id := 7, pos := 3, history := [((3 : Nat), (none : Option Vec2))], players := applyAt (applyAt (fun _ : Fin 2 => (0 : Nat)) (tileIdx Tile.X) (fun p => p + 1)) (tileIdx Tile.X) (fun p => p + 2), winner := none }
    (Vec2.new 3 2) "x" 1
  have h2 := C10_history_invariant
    (⟨0, fun _ => Tile.X, fun p _ => p, fun _ => false, fun _ => Tile.Empty,
      fun _ _ => true⟩ : PosOps Nat)
    (fun p => (p, UpdateResult.Wait)) (fun p => p + 1) (fun p => p + 2)
    0 (fun _ => 0) 5
    { id := 7, pos := 5, history := [(3, none), (5, some (Vec2.new 3 2))], players := (fun _ => 0), winner := none }
    { id := 7, pos := 3, history := [((3 : Nat), (none : Option Vec2))], players := (fun _ : Fin 2 => (0 : Nat)), winner := none }
    (Vec2.new 3 2) "x" 1
  exact ⟨h1.1, h1.2.1 hinv, h1.2.2.2.1 hinv rfl, h2.2.2.2.2 hinv rfl⟩

/-- Claim C8: for a finished match the two scores both exist and sum to 1:
the winning side scores 1, the losing side 0, and a neutral recorded winner
gives one half to each side, for any relation function of the board library
that maps the recorded winner to complementary Same and Opponent results for
X and O, or to Neutral for both. -/
theorem C8_zero_sum {Pos P : Type} (g : Game Pos P) (w : Tile)
    (rel : Tile → Tile → Relation) (hw : g.winner = some w)
    (hrel : (rel w Tile.X = Relation.Same ∧ rel w Tile.O = Relation.Opponent) ∨
      (rel w Tile.X = Relation.Opponent ∧ rel w Tile.O = Relation.Same) ∨
      (rel w Tile.X = Relation.Neutral ∧ rel w Tile.O = Relation.Neutral)) :
    Game.score_for rel g Tile.X = some (relScore (rel w Tile.X)) ∧
    Game.score_for rel g Tile.O = some (relScore (rel w Tile.O)) ∧
    relScore (rel w Tile.X) + relScore (rel w Tile.O) = 1 := by
  refine ⟨by simp [Game.score_for, hw], by simp [Game.score_for, hw], ?_⟩
  rcases hrel with ⟨h1, h2⟩ | ⟨h1, h2⟩ | ⟨h1, h2⟩ <;> rw [h1, h2] <;> norm_num [relScore]

theorem C8_witness :
    Game.score_for Tile.relation
      ({ id := 0, pos := (), history := [((), none)], players := (fun _ => 0), winner := some Tile.X } : Game Unit Nat)
      Tile.X = some (relScore (Tile.relation Tile.X Tile.X)) ∧
    Game.score_for Tile.relation
      ({ id := 0, pos := (), history := [((), none)], players := (fun _ => 0), winner := some Tile.X } : Game Unit Nat)
      Tile.O = some (relScore (Tile.relation Tile.X Tile.O)) ∧
    relScore (Tile.relation Tile.X Tile.X) + relScore (Tile.relation Tile.X Tile.O) = 1 :=
  C8_zero_sum
    ({ id := 0, pos := (), history := [((), none)], players := (fun _ => 0), winner := some Tile.X } : Game Unit Nat)
    Tile.X Tile.relation rfl (by decide)

/-- Claim C7 counterexample: calling interrupt on an AI whose run handle is no
longer outstanding (exactly the state AI.update leaves behind once a Success
move has been consumed) unwraps None and panics, aborting the host, modelled
as the none result; so the call is not idempotent or safe in that state. -/
theorem C7_counterexample :
    AI.interrupt { path := "ai", time_limit := 100, ai_run_handle := none } = none ∧
    (AI.update { path := "ai", time_limit := 100, ai_run_handle := some ⟨⟨true⟩, 0, 100⟩ }
      (fun _ => true) "" (AIRunResult.Success (Vec2.new 3 2) none)).1.ai_run_handle = none :=
  ⟨rfl, rfl⟩

/-- Claim C7 as amended: interrupt forcibly kills the child process when a run
handle is outstanding (leaving the handle in place, so an immediate second
interrupt again reaches the kill call), and it panics, aborting the host,
when no run handle is outstanding, for example after the move was consumed
and before the next request is issued. -/
theorem C7_interrupt_amended (a : AI) (h : AIRunHandle) :
    (a.ai_run_handle = some h →
      AI.interrupt a = some { a with ai_run_handle := some h.kill } ∧
      (h.kill).child.running = false) ∧
    (a.ai_run_handle = none → AI.interrupt a = none) := by
  constructor
  · intro hh
    exact ⟨by simp [AI.interrupt, hh], rfl⟩
  · intro hh
    simp [AI.interrupt, hh]

theorem C7_witness :
    AI.interrupt { path := "ai", time_limit := 100, ai_run_handle := some ⟨⟨true⟩, 0, 100⟩ } =
      some { path := "ai", time_limit := 100, ai_run_handle := some ( AIRunHandle.kill ⟨⟨true⟩, 0, 100⟩) } ∧
    ( AIRunHandle.kill ⟨⟨true⟩, 0, 100⟩).child.running = false := by
  have h := C7_interrupt_amended
    { path := "ai", time_limit := 100, ai_run_handle := some ⟨⟨true⟩, 0, 100⟩ }
    ⟨⟨true⟩, 0, 100⟩
  exact h.1 rfl

theorem eloRound_foldl {R Player : Type} [DecidableEq Player]
    (f : (Player → R) → Player → List (elo.HalfGame Player) → R)
    (hg : Player → List (elo.HalfGame Player)) (elos : Player → R) :
    ∀ (o : List Player) (acc : Player → R),
      o.foldl (fun new_elos p => Function.update new_elos p (f elos p (hg p))) acc =
        fun p => if p ∈ o then f elos p (hg p) else acc p := by
  intro o
  induction o with
  | nil => intro acc; funext p; simp
  | cons a o ih =>
      intro acc
      rw [List.foldl_cons, ih]
      funext p
      by_cases hp : p ∈ o
      · simp [hp]
      · by_cases hpa : p = a
        · subst hpa
          simp [hp, Function.update_same]
        · simp [hp, hpa, Function.update_noteq hpa]

theorem eloRound_congr {R Player : Type} [DecidableEq Player]
    (f : (Player → R) → Player → List (elo.HalfGame Player) → R)
    (hg : Player → List (elo.HalfGame Player)) (elos : Player → R)
    {o1 o2 : List Player} (h : ∀ p, p ∈ o1 ↔ p ∈ o2) :
    elo.eloRound f hg elos o1 = elo.eloRound f hg elos o2 := by
  unfold elo.eloRound
  rw [eloRound_foldl, eloRound_foldl]
  funext p
  by_cases hp : p ∈ o2 <;> simp [h p, hp]

/-- Claim C4: each rating round reads only the frozen previous-round map and
writes into a fresh copy, so from_single_tournament returns the same final
rating map for every order in which the participants are processed within a
round (any two orders that are permutations of the participant key set), for
every input game list, iteration count, rating formula (hence every K-factor)
and rating arithmetic. -/
theorem C4_round_order_independent {R Player : Type} [DecidableEq Player]
    (f : (Player → R) → Player → List (elo.HalfGame Player) → R) (baseline : R)
    (games : List (elo.Game Player)) (iterations : Nat) (order1 order2 : List Player)
    (h1 : order1.Perm (elo.participants games))
    (h2 : order2.Perm (elo.participants games)) :
    elo.from_single_tournament f baseline games iterations order1 =
      elo.from_single_tournament f baseline games iterations order2 := by
  have hmem : ∀ p, p ∈ order1 ↔ p ∈ order2 :=
    fun p => h1.mem_iff.trans h2.mem_iff.symm
  unfold elo.from_single_tournament
  induction iterations with
  | zero => rfl
  | succ k ih =>
      rw [Function.iterate_succ_apply', Function.iterate_succ_apply', ih]
      exact eloRound_congr f (elo.gamesByPlayer games) _ hmem

theorem C4_witness :
    elo.from_single_tournament (R := ℚ) (fun elos p _ => elos p + 1) 1000
      [⟨((0 : Nat), 1), 1⟩] 3 [0, 1] =
    elo.from_single_tournament (fun elos p _ => elos p + 1) 1000
      [⟨((0 : Nat), 1), 1⟩] 3 [1, 0] :=
  C4_round_order_independent _ _ _ _ _ _ (by decide) (by decide)

/-- Claim C1: after a successful exit (status 0), whenever the trimmed stdout
does not split into exactly 1 or 2 trimmed lines with a first line of exactly
two characters, a column letter a..h followed by a row digit 1..8, then
handle_finished_child returns InvalidOuput with a message naming the failed
constraint, and never Success. -/
theorem C1_invalid_stdout_classified (stderrText stdout : String)
    (hbad : wellFormedStdout stdout = false) :
    (∃ msg, handle_finished_child 0 stderrText stdout = AIRunResult.InvalidOuput msg) ∧
    ∀ mv notes, handle_finished_child 0 stderrText stdout ≠ AIRunResult.Success mv notes := by
  have hbad2 : wellFormedLines ((splitLines (trimChars stdout.data)).map trimChars) = false :=
    hbad
  have h0 : handle_finished_child 0 stderrText stdout =
      decodeOutput ((splitLines (trimChars stdout.data)).map trimChars) := by
    simp [handle_finished_child]
  obtain ⟨msg, hm⟩ := decodeOutput_invalid_of_malformed hbad2
  refine ⟨⟨msg, h0.trans hm⟩, ?_⟩
  intro mv notes hS
  rw [h0, hm] at hS
  exact AIRunResult.noConfusion hS

theorem C1_witness :
    wellFormedStdout "zz9" = false ∧
    ((∃ msg, handle_finished_child 0 "" "zz9" = AIRunResult.InvalidOuput msg) ∧
      ∀ mv notes, handle_finished_child 0 "" "zz9" ≠ AIRunResult.Success mv notes) :=
  ⟨by decide, C1_invalid_stdout_classified "" "zz9" (by decide)⟩

/-- Claim C5: every successfully decoded stdout yields the move whose
zero-based coordinates are obtained by subtracting the letter a from the
first character and the digit 1 from the second character of the trimmed
first line; a present second line is carried verbatim as the note, and when
it is absent the Ok result delivered by the AI player update carries the
fixed default annotation text. -/
theorem C5_success_decode (status : Int) (stderrText stdout : String) (mv : Vec2)
    (notes : Option String)
    (h : handle_finished_child status stderrText stdout = AIRunResult.Success mv notes) :
    (mv = Vec2.new
        (((((splitLines (trimChars stdout.data)).map trimChars).headD []).headD 'A').toNat
          - Char.toNat 'a' : Nat)
        ((((((splitLines (trimChars stdout.data)).map trimChars).headD []).drop 1).headD
          'A').toNat - Char.toNat '1' : Nat) ∧
      notes = (if ((splitLines (trimChars stdout.data)).map trimChars).length = 2
        then some ⟨((splitLines (trimChars stdout.data)).map trimChars).getD 1 []⟩
        else none)) ∧
    ∀ (a : AI) (valid : Vec2 → Bool) (dbg : String), valid mv = true →
      (AI.update a valid dbg (AIRunResult.Success mv notes)).2 =
        UpdateResult.Ok mv (notes.getD "no notes provided") ∧
      (notes = none →
        (AI.update a valid dbg (AIRunResult.Success mv notes)).2 =
          UpdateResult.Ok mv "no notes provided") := by
  have hs : status = 0 := by
    by_contra hne
    rw [handle_finished_child, if_pos hne] at h
    exact AIRunResult.noConfusion h
  subst hs
  have h0 : handle_finished_child 0 stderrText stdout =
      decodeOutput ((splitLines (trimChars stdout.data)).map trimChars) := by
    simp [handle_finished_child]
  rw [h0] at h
  have hd := decodeOutput_success h
  refine ⟨hd, ?_⟩
  intro a valid dbg hval
  constructor
  · simp [AI.update, hval]
  · intro hn
    subst hn
    simp [AI.update, hval]

theorem C5_witness :
    handle_finished_child 0 "" "d3\nhello there" =
      AIRunResult.Success (Vec2.new 3 2) (some "hello there") ∧
    (AI.update { path := "ai", time_limit := 100, ai_run_handle := some ⟨⟨true⟩, 0, 100⟩ }
        (fun _ => true) "" (AIRunResult.Success (Vec2.new 3 2) (some "hello there"))).2 =
      UpdateResult.Ok (Vec2.new 3 2) "hello there" := by
  have hd := C5_success_decode 0 "" "d3\nhello there" (Vec2.new 3 2)
    (some "hello there") (by decide)
  refine ⟨by decide, ?_⟩
  exact (hd.2 { path := "ai", time_limit := 100, ai_run_handle := some ⟨⟨true⟩, 0, 100⟩ }
    (fun _ => true) "" rfl).1

/-- Claim C9 fails on the code: the in-repo Vec2 Display prints the DECIMAL
VALUE of the byte of the letter a plus x, followed by the zero-based row, so
the move with zero-based coordinates (0, 0) encodes to the three-byte text
970 instead of a1; the decoder rejects every such token as InvalidOuput
(invalid length), so decode of encode never returns the original move. -/
theorem C9_display_decode_mismatch :
    Vec2.display (Vec2.new 0 0) = "970" ∧
    handle_finished_child 0 "" (Vec2.display (Vec2.new 0 0)) =
      AIRunResult.InvalidOuput "Output \x27970\x27 has invalid length" ∧
    ∀ notes, handle_finished_child 0 "" (Vec2.display (Vec2.new 0 0)) ≠
      AIRunResult.Success (Vec2.new 0 0) notes := by
  have h2 : handle_finished_child 0 "" (Vec2.display (Vec2.new 0 0)) =
      AIRunResult.InvalidOuput "Output \x27970\x27 has invalid length" := by decide
  refine ⟨by decide, h2, ?_⟩
  intro notes hS
  rw [h2] at hS
  exact AIRunResult.noConfusion hS
